import Mathlib

/-!
Shallow embedding of the vector retrieval and indexing subsystem of the
`seen` worker (src/telegram.rs, src/vector.rs, src/d1.rs), together with
proofs about its specified behaviour.

Rust strings are modelled at the character level as `List Char`; the
payload vectors (`Vector<768>`) are opaque data and are modelled by a type
parameter `V`.
-/

namespace Seen

/-- Character-level model of a Rust `String` / `&str`. -/
abbrev Str := List Char

/-! ### vector_id construction and parsing

`format!("{}-{}", id, chunk)` builds a vector id (telegram.rs line 166,
d1.rs line 102, vector.rs line 251); parsing takes
`parts = id.split('-')` and rejoins `parts[0..parts.len()-1]` with `"-"`
(telegram.rs lines 184-185). -/

/-- Decimal digit character, as produced by Rust's `Display` for `usize`. -/
def digitChar (n : Nat) : Char := Char.ofNat (48 + n)

/-- Decimal rendering of a `usize`, as produced by `format!("{}", n)`. -/
def natToChars (n : Nat) : List Char :=
  if _hlt : n < 10 then [digitChar n]
  else natToChars (n / 10) ++ [digitChar (n % 10)]
  decreasing_by omega

/-- The vector id `"{document_id}-{chunk_index}"`. -/
def mkVectorId (docId : Str) (chunk : Nat) : Str :=
  docId ++ '-' :: natToChars chunk

/-- Model of Rust's `str::split('-')`: splits into the (possibly empty)
segments between `'-'` characters. -/
def splitDash : List Char → List (List Char)
  | [] => [[]]
  | c :: rest =>
    if c = '-' then [] :: splitDash rest
    else
      match splitDash rest with
      | [] => [[c]]
      | h :: t => (c :: h) :: t

/-- Model of `Vec<&str>::join("-")`. -/
def joinDash : List (List Char) → List Char
  | [] => []
  | [x] => x
  | x :: xs => x ++ '-' :: joinDash xs

/-- `parts[0..parts.len()-1].join("-")`: the document id recovered from a
vector id (telegram.rs lines 184-185). -/
def parseLinkId (vid : Str) : Str :=
  joinDash (splitDash vid).dropLast

theorem splitDash_ne_nil (l : List Char) : splitDash l ≠ [] := by
  cases l with
  | nil => simp [splitDash]
  | cons c rest =>
    simp only [splitDash]
    split
    · simp
    · cases h : splitDash rest <;> simp

theorem joinDash_splitDash (l : List Char) : joinDash (splitDash l) = l := by
  induction l with
  | nil => rfl
  | cons c rest ih =>
    simp only [splitDash]
    split
    · rename_i hc
      subst hc
      cases h : splitDash rest with
      | nil => exact absurd h (splitDash_ne_nil rest)
      | cons a b =>
        rw [h] at ih
        simpa [joinDash] using ih
    · cases h : splitDash rest with
      | nil => exact absurd h (splitDash_ne_nil rest)
      | cons a b =>
        rw [h] at ih
        cases b with
        | nil =>
          simp only [joinDash] at ih ⊢
          rw [ih]
        | cons b0 bs =>
          simp only [joinDash, List.cons_append] at ih ⊢
          rw [ih]

theorem splitDash_no_dash (s : List Char) (h : '-' ∉ s) : splitDash s = [s] := by
  induction s with
  | nil => rfl
  | cons c rest ih =>
    simp only [List.mem_cons, not_or] at h
    unfold splitDash
    rw [if_neg (fun hc => h.1 hc.symm), ih h.2]

theorem splitDash_append_dash (doc s : List Char) (h : '-' ∉ s) :
    splitDash (doc ++ '-' :: s) = splitDash doc ++ [s] := by
  induction doc with
  | nil => simp [splitDash, splitDash_no_dash s h]
  | cons c rest ih =>
    by_cases hc : c = '-'
    · subst hc
      simp [splitDash, ih]
    · simp only [List.cons_append, splitDash, if_neg hc]
      cases hrest : splitDash rest with
      | nil => exact absurd hrest (splitDash_ne_nil rest)
      | cons a b =>
        rw [List.append_eq, ih, hrest]
        simp

theorem no_dash_natToChars (n : Nat) : '-' ∉ natToChars n := by
  have hd : ∀ k : Fin 10, digitChar k.val ≠ '-' := by decide
  induction n using natToChars.induct with
  | case1 n h =>
    rw [natToChars, dif_pos h]
    simp only [List.mem_singleton]
    exact fun he => hd ⟨n, h⟩ he.symm
  | case2 n h ih =>
    rw [natToChars, dif_neg h]
    simp only [List.mem_append, List.mem_singleton, not_or]
    refine ⟨ih, fun he => hd ⟨n % 10, Nat.mod_lt _ (by omega)⟩ he.symm⟩

/-- Claim C4: for every document id (hyphens included) and chunk index,
splitting `"{document_id}-{chunk_index}"` on `'-'` and rejoining all
tokens but the last recovers the document id exactly. -/
theorem vector_id_round_trip (docId : Str) (chunk : Nat) :
    parseLinkId (mkVectorId docId chunk) = docId := by
  unfold parseLinkId mkVectorId
  rw [splitDash_append_dash docId (natToChars chunk) (no_dash_natToChars chunk)]
  rw [List.dropLast_concat]
  exact joinDash_splitDash docId

/-! ### Decoding decimal renderings (used to separate chunk indices) -/

/-- Decodes a decimal digit string; left inverse of `natToChars`. -/
def charsToNat (l : List Char) : Nat :=
  l.foldl (fun acc c => acc * 10 + (c.toNat - 48)) 0

theorem digitChar_toNat : ∀ k : Fin 10, (digitChar k.val).toNat = 48 + k.val := by
  decide

theorem charsToNat_append_digit (a : List Char) (c : Char) :
    charsToNat (a ++ [c]) = charsToNat a * 10 + (c.toNat - 48) := by
  simp [charsToNat, List.foldl_append]

theorem charsToNat_natToChars (n : Nat) : charsToNat (natToChars n) = n := by
  induction n using natToChars.induct with
  | case1 n h =>
    rw [natToChars, dif_pos h]
    have := digitChar_toNat ⟨n, h⟩
    simp [charsToNat, this]
  | case2 n h ih =>
    rw [natToChars, dif_neg h, charsToNat_append_digit, ih]
    have := digitChar_toNat ⟨n % 10, Nat.mod_lt _ (by omega)⟩
    simp only at this
    omega

theorem natToChars_injective {m n : Nat} (h : natToChars m = natToChars n) : m = n := by
  have := congrArg charsToNat h
  rwa [charsToNat_natToChars, charsToNat_natToChars] at this

theorem mkVectorId_chunk_injective {docId : Str} {m n : Nat}
    (h : mkVectorId docId m = mkVectorId docId n) : m = n := by
  unfold mkVectorId at h
  have h2 := List.append_cancel_left h
  injection h2 with _ h3
  exact natToChars_injective h3

/-! ### Rebuild of the local index (telegram.rs, `upgrade_vector_index`)

The durable listing (`get_all_links`, d1.rs lines 173-179) yields documents
in a fixed order; each document carries `id` and `chunk_count`. Payload
vectors are opaque, modelled by the type parameter `V`; the external
`get_by_ids` backend is a function from the requested ids to the returned
vectors (possibly fewer). The bucket snapshot is modelled by its decoded
content, so `from_bytes`/`to_bytes` are identities in the model. -/

/-- A row of the `links` table as used by the rebuild. -/
structure Link where
  id : Str
  chunk_count : Nat

/-- Canonical enumeration of vector ids (telegram.rs lines 162-169): for
every link in listing order, ids `"{id}-{chunk}"` for
`chunk ∈ [0, chunk_count)`. -/
def canonicalIds (links : List Link) : List Str :=
  links.flatMap (fun link => (List.range link.chunk_count).map (mkVectorId link.id))

/-- Model of Rust's `slice::chunks(n)` for positive `n` (it panics on 0,
modelled as the empty list). -/
def chunksOf : Nat → List α → List (List α)
  | _, [] => []
  | 0, _ :: _ => []
  | n + 1, a :: t => ((a :: t).take (n + 1)) :: chunksOf (n + 1) ((a :: t).drop (n + 1))
  termination_by _ l => l.length
  decreasing_by
    simp only [List.length_cons, List.length_drop]
    omega

/-- State threaded through one rebuild invocation: the in-memory local
index (insertion order), the `INSERT OR REPLACE INTO embeddings` writes
performed, and the `migrated` counter. -/
structure RebuildState (V : Type) where
  index : List (Str × V)
  dbWrites : List (Str × V × Str)
  migrated : Nat

/-- Body of the per-batch loop (telegram.rs lines 176-205): fetch the
batch's vectors, add the whole batch length to `migrated`, then for each
zipped `(id, vector)` pair write the row
`(vector_id, vector, link_id := parseLinkId id)` and insert into the
local index. -/
def processBatch (getByIds : List Str → List V) (st : RebuildState V)
    (batch : List Str) : RebuildState V :=
  let chunk_vectors := getByIds batch
  let pairs := batch.zip chunk_vectors
  { index := st.index ++ pairs
    dbWrites := st.dbWrites ++ pairs.map (fun p => (p.1, p.2, parseLinkId p.1))
    migrated := st.migrated + batch.length }

/-- Model of `upgrade_vector_index` (telegram.rs lines 140-211): build the
canonical id list, skip the first `index0.length` ids, process the rest in
batches of 20 capped at 15 batches, and return
`((total_ids, migrated), final state)`; the final state's `index` is what
is serialized back to `"vector_lite.bin"`. -/
def upgradeVectorIndex (links : List Link) (index0 : List (Str × V))
    (getByIds : List Str → List V) : (Nat × Nat) × RebuildState V :=
  let ids := canonicalIds links
  let total_ids := ids.length
  let new_ids := ids.drop index0.length
  let st := ((chunksOf 20 new_ids).take 15).foldl (processBatch getByIds)
    ⟨index0, [], index0.length⟩
  ((total_ids, st.migrated), st)

theorem foldl_processBatch (g : List Str → List V) (batches : List (List Str)) :
    ∀ st : RebuildState V,
      (batches.foldl (processBatch g) st).migrated
          = st.migrated + (batches.map List.length).sum
      ∧ (batches.foldl (processBatch g) st).dbWrites
          = st.dbWrites
            ++ batches.flatMap
                (fun b => (b.zip (g b)).map (fun p => (p.1, p.2, parseLinkId p.1)))
      ∧ (batches.foldl (processBatch g) st).index
          = st.index ++ batches.flatMap (fun b => b.zip (g b)) := by
  induction batches with
  | nil => intro st; simp
  | cons b bs ih =>
    intro st
    obtain ⟨h1, h2, h3⟩ := ih (processBatch g st b)
    refine ⟨?_, ?_, ?_⟩
    · rw [List.foldl_cons, h1]
      simp only [processBatch, List.map_cons, List.sum_cons]
      omega
    · rw [List.foldl_cons, h2]
      simp [processBatch, List.flatMap_cons]
    · rw [List.foldl_cons, h3]
      simp [processBatch, List.flatMap_cons]

theorem chunksOf_take_flatten (n k : Nat) (hn : n ≠ 0) :
    ∀ l : List α, ((chunksOf n l).take k).flatten = l.take (n * k) := by
  induction k with
  | zero => intro l; simp
  | succ k ih =>
    intro l
    cases l with
    | nil => cases n <;> simp [chunksOf]
    | cons a t =>
      cases n with
      | zero => exact absurd rfl hn
      | succ m =>
        simp only [chunksOf]
        rw [List.take_succ_cons, List.flatten_cons, ih ((a :: t).drop (m + 1))]
        rw [← List.take_add]
        congr 1
        ring

theorem chunksOf_batch_le (n : Nat) (l : List α) :
    ∀ b ∈ chunksOf n l, b.length ≤ n := by
  suffices h : ∀ (len : Nat) (l : List α), l.length = len →
      ∀ b ∈ chunksOf n l, b.length ≤ n from h l.length l rfl
  intro len
  induction len using Nat.strong_induction_on with
  | _ len ih =>
    intro l hlen b hb
    cases l with
    | nil => cases n <;> simp [chunksOf] at hb
    | cons a t =>
      cases n with
      | zero => simp [chunksOf] at hb
      | succ m =>
        simp only [chunksOf] at hb
        rcases List.mem_cons.mp hb with hb | hb
        · subst hb; exact List.length_take_le ..
        · have hlt : ((a :: t).drop (m + 1)).length < len := by
            simp only [List.length_cons] at hlen
            simp only [List.length_drop, List.length_cons]
            omega
          exact ih _ hlt _ rfl b hb

/-- Claim C1: one rebuild invocation takes the watermark to be the local
index's length, skips that many canonical ids, processes the rest in
batches of 20 capped at 15 batches (hence at most 300 ids), and returns
`(total_canonical_ids, migrated_so_far)`. -/
theorem upgrade_vector_index_spec (links : List Link) (index0 : List (Str × V))
    (g : List Str → List V) :
    (upgradeVectorIndex links index0 g).1.1 = (canonicalIds links).length
    ∧ (upgradeVectorIndex links index0 g).1.2
        = index0.length + min ((canonicalIds links).length - index0.length) 300
    ∧ ((chunksOf 20 ((canonicalIds links).drop index0.length)).take 15).length ≤ 15
    ∧ (∀ b ∈ (chunksOf 20 ((canonicalIds links).drop index0.length)).take 15,
        b.length ≤ 20)
    ∧ ((chunksOf 20 ((canonicalIds links).drop index0.length)).take 15).flatten
        = ((canonicalIds links).drop index0.length).take 300 := by
  obtain ⟨h1, h2, h3⟩ := foldl_processBatch g
    ((chunksOf 20 ((canonicalIds links).drop index0.length)).take 15)
    ⟨index0, [], index0.length⟩
  refine ⟨rfl, ?_, List.length_take_le .., ?_, ?_⟩
  · show (((chunksOf 20 ((canonicalIds links).drop index0.length)).take 15).foldl
      (processBatch g) ⟨index0, [], index0.length⟩).migrated = _
    rw [h1]
    have hflat := chunksOf_take_flatten 20 15 (by omega)
      ((canonicalIds links).drop index0.length)
    have hlen := congrArg List.length hflat
    rw [List.length_flatten, List.length_take, List.length_drop] at hlen
    simp only [RebuildState.migrated]
    omega
  · intro b hb
    exact chunksOf_batch_le 20 _ b (List.mem_of_mem_take hb)
  · exact chunksOf_take_flatten 20 15 (by omega) _

/-- Claim C3: once the rebuild has converged (the local index holds as many
entries as there are canonical ids, so `migrated == total`), a further
invocation returns `(total, total)`, performs no durable-row writes, and
leaves the local index — hence the serialized snapshot content — unchanged. -/
theorem upgrade_converged_noop (links : List Link) (index0 : List (Str × V))
    (g : List Str → List V) (h : index0.length = (canonicalIds links).length) :
    (upgradeVectorIndex links index0 g).1
        = ((canonicalIds links).length, (canonicalIds links).length)
    ∧ (upgradeVectorIndex links index0 g).2.dbWrites = []
    ∧ (upgradeVectorIndex links index0 g).2.index = index0 := by
  have hdrop : (canonicalIds links).drop index0.length = [] :=
    List.drop_eq_nil_of_le (le_of_eq h.symm)
  have hchunks : chunksOf 20 ((canonicalIds links).drop index0.length)
      = ([] : List (List Str)) := by
    rw [hdrop]; simp [chunksOf]
  simp only [upgradeVectorIndex]
  rw [hchunks]
  simp [h]

theorem upgrade_converged_noop_witness :
    ([(mkVectorId ['a'] 0, (0 : Nat))].length
        = (canonicalIds [⟨['a'], 1⟩]).length)
    ∧ (upgradeVectorIndex [⟨['a'], 1⟩] [(mkVectorId ['a'] 0, (0 : Nat))]
        (fun _ => [])).1 = (1, 1)
    ∧ (upgradeVectorIndex [⟨['a'], 1⟩] [(mkVectorId ['a'] 0, (0 : Nat))]
        (fun _ => [])).2.dbWrites = []
    ∧ (upgradeVectorIndex [⟨['a'], 1⟩] [(mkVectorId ['a'] 0, (0 : Nat))]
        (fun _ => [])).2.index = [(mkVectorId ['a'] 0, (0 : Nat))] := by
  have hconv : ([(mkVectorId ['a'] 0, (0 : Nat))] : List (Str × Nat)).length
      = (canonicalIds [⟨['a'], 1⟩]).length := by decide
  have h := upgrade_converged_noop [⟨['a'], 1⟩] [(mkVectorId ['a'] 0, (0 : Nat))]
    (fun _ => []) hconv
  have htot : (canonicalIds [(⟨['a'], 1⟩ : Link)]).length = 1 := by decide
  exact ⟨hconv, by rw [h.1, htot], h.2.1, h.2.2⟩

/-- Claim C8: in every rebuild invocation the returned `migrated` count is
the watermark plus the full length of each processed batch — it is bumped
by the whole batch size regardless of how many vectors `get_by_ids`
returned — while only the zipped prefix of `(id, vector)` pairs is written
to the durable table and inserted into the local index. -/
theorem upgrade_migrated_counts_full_batches (links : List Link)
    (index0 : List (Str × V)) (g : List Str → List V) :
    (upgradeVectorIndex links index0 g).2.migrated
        = index0.length
          + ((((chunksOf 20 ((canonicalIds links).drop index0.length)).take 15).map
              List.length).sum)
    ∧ (upgradeVectorIndex links index0 g).2.dbWrites
        = ((chunksOf 20 ((canonicalIds links).drop index0.length)).take 15).flatMap
            (fun b => (b.zip (g b)).map (fun p => (p.1, p.2, parseLinkId p.1)))
    ∧ (upgradeVectorIndex links index0 g).2.dbWrites.length
        = ((((chunksOf 20 ((canonicalIds links).drop index0.length)).take 15).map
            (fun b => min b.length (g b).length)).sum)
    ∧ (upgradeVectorIndex links index0 g).2.index
        = index0
          ++ ((chunksOf 20 ((canonicalIds links).drop index0.length)).take 15).flatMap
              (fun b => b.zip (g b)) := by
  obtain ⟨h1, h2, h3⟩ := foldl_processBatch g
    ((chunksOf 20 ((canonicalIds links).drop index0.length)).take 15)
    ⟨index0, [], index0.length⟩
  refine ⟨h1, by simpa using h2, ?_, by simpa using h3⟩
  show (((chunksOf 20 ((canonicalIds links).drop index0.length)).take 15).foldl
      (processBatch g) ⟨index0, [], index0.length⟩).dbWrites.length = _
  rw [h2]
  simp only [List.nil_append, List.length_flatMap]
  refine congrArg List.sum (List.map_congr_left fun b _ => ?_)
  simp only [Function.comp_apply, List.length_map, List.length_zip]

/-! ### `/delete_vector` (telegram.rs lines 128-138) and the remote delete
(vector.rs `delete_vectors_by_prefix`, lines 235-280) -/

/-- The ids submitted by `delete_vectors_by_prefix` (vector.rs lines
249-252): `"{id_prefix}-0"` through `"{id_prefix}-(chunk_count-1)"`. -/
def deleteSubmittedIds (idPrefix : Str) (chunkCount : Nat) : List Str :=
  (List.range chunkCount).map (mkVectorId idPrefix)

/-- Model of `VectorLite::delete_by_id`: removes the entries stored under
the given id. -/
def localDeleteById (index : List (Str × V)) (vid : Str) : List (Str × V) :=
  index.filter (fun e => e.1 ≠ vid)

/-- Model of `delete_vector` (telegram.rs lines 128-138): issue a remote
delete with a hard-coded chunk count of 10, then delete ids
`"{id}-0"` .. `"{id}-9"` from the loaded local snapshot and save it back.
Returns the ids sent to the remote backend and the saved local index. -/
def deleteVector (id : Str) (index0 : List (Str × V)) :
    List Str × List (Str × V) :=
  let remoteIds := deleteSubmittedIds id 10
  let index := (List.range 10).foldl
    (fun ix i => localDeleteById ix (mkVectorId id i)) index0
  (remoteIds, index)

theorem foldl_localDeleteById (vids : List Str) :
    ∀ index0 : List (Str × V),
      vids.foldl (fun ix vid => localDeleteById ix vid) index0
        = index0.filter (fun e => decide (e.1 ∉ vids)) := by
  induction vids with
  | nil => intro index0; simp
  | cons v vs ih =>
    intro index0
    rw [List.foldl_cons, ih (localDeleteById index0 v)]
    unfold localDeleteById
    rw [List.filter_filter]
    apply List.filter_congr
    intro e _
    by_cases h1 : e.1 = v <;> by_cases h2 : e.1 ∈ vs <;> simp [h1, h2]

/-- Claim C9: `/delete_vector id` submits exactly the ids
`"{id}-0"` .. `"{id}-9"` to the remote delete, removes exactly those ids
from the local snapshot, and never removes an entry whose chunk index is
10 or greater. -/
theorem delete_vector_fixed_ten (id : Str) (index0 : List (Str × V)) :
    (deleteVector id index0).1 = (List.range 10).map (mkVectorId id)
    ∧ (deleteVector id index0).2
        = index0.filter (fun e => decide (e.1 ∉ (List.range 10).map (mkVectorId id)))
    ∧ ∀ j, 10 ≤ j → ∀ v : V,
        (mkVectorId id j, v) ∈ index0 → (mkVectorId id j, v) ∈ (deleteVector id index0).2 := by
  have hfold := foldl_localDeleteById
    ((List.range 10).map (mkVectorId id)) index0
  have heq : (deleteVector id index0).2
      = index0.filter (fun e => decide (e.1 ∉ (List.range 10).map (mkVectorId id))) := by
    show (List.range 10).foldl (fun ix i => localDeleteById ix (mkVectorId id i)) index0 = _
    rw [← List.foldl_map (mkVectorId id) (fun ix vid => localDeleteById ix vid)]
    exact hfold
  refine ⟨rfl, heq, ?_⟩
  intro j hj v hv
  rw [heq]
  rw [List.mem_filter]
  refine ⟨hv, ?_⟩
  simp only [List.mem_map, List.mem_range, decide_eq_true_eq]
  rintro ⟨i, hi, hvid⟩
  have := mkVectorId_chunk_injective hvid
  omega

theorem delete_vector_fixed_ten_witness :
    (deleteVector ['d'] [(mkVectorId ['d'] 12, (7 : Nat))]).1
        = (List.range 10).map (mkVectorId ['d'])
    ∧ (mkVectorId ['d'] 12, (7 : Nat))
        ∈ (deleteVector ['d'] [(mkVectorId ['d'] 12, (7 : Nat))]).2 := by
  have h := delete_vector_fixed_ten ['d'] [(mkVectorId ['d'] 12, (7 : Nat))]
  exact ⟨h.1, h.2.2 12 (by decide) 7 (by simp)⟩

/-! ### Embedding generation retry (vector.rs lines 40-82) -/

/-- Parsed payload of the embedding service
(`EmbeddingResponse { success, result: { data } }`). -/
structure EmbeddingPayload where
  success : Bool
  data : List (List ℚ)

/-- Observable outcome of one HTTP attempt: non-2xx status (rejected in
`post_request`), an unparseable body (`response.json()` fails), or a
parsed payload. -/
inductive AttemptOutcome where
  | httpError
  | malformed
  | payload (r : EmbeddingPayload)

/-- Model of `generate_embedding_attempt` (vector.rs lines 69-82): errors
on non-2xx, malformed payload, `success = false`, or empty `data`;
otherwise returns `data[0]`. -/
def generateEmbeddingAttempt (o : AttemptOutcome) : Except String (List ℚ) :=
  match o with
  | .httpError => .error "Failed to send vector request"
  | .malformed => .error "SerdeJsonError"
  | .payload r =>
    if !r.success || r.data.isEmpty then
      .error "Failed to generate embeddings: empty response"
    else
      .ok (r.data.headD [])

/-- Model of `generate_embeddings` (vector.rs lines 40-66): the external
service is a function from the attempt number to that attempt's outcome
for the fixed request `{ text: [text] }`. Returns the result together
with the trace of `(attempt_number, input_text)` calls actually made. -/
def generateEmbeddings (text : Str) (world : Nat → AttemptOutcome) :
    Except String (List ℚ) × List (Nat × Str) :=
  match generateEmbeddingAttempt (world 0) with
  | .ok e => (.ok e, [(0, text)])
  | .error _ =>
    match generateEmbeddingAttempt (world 1) with
    | .ok e => (.ok e, [(0, text), (1, text)])
    | .error err => (.error err, [(0, text), (1, text)])

/-- Claim C5: `generate_embeddings` makes at most two attempts, every
attempt uses the identical input, a first-attempt success returns without
a retry, a first-attempt failure retries exactly once, the overall result
is an error exactly when both attempts fail, and an attempt fails exactly
on non-2xx status, malformed payload, `success = false`, or empty data. -/
theorem generate_embeddings_retry_once (text : Str) (world : Nat → AttemptOutcome) :
    (generateEmbeddings text world).2.length ≤ 2
    ∧ (∀ c ∈ (generateEmbeddings text world).2, c.2 = text)
    ∧ (∀ e, generateEmbeddingAttempt (world 0) = .ok e →
        generateEmbeddings text world = (.ok e, [(0, text)]))
    ∧ (∀ err, generateEmbeddingAttempt (world 0) = .error err →
        (generateEmbeddings text world).2 = [(0, text), (1, text)])
    ∧ ((∃ err, (generateEmbeddings text world).1 = .error err)
        ↔ (∃ e1, generateEmbeddingAttempt (world 0) = .error e1)
          ∧ (∃ e2, generateEmbeddingAttempt (world 1) = .error e2))
    ∧ (∀ o, (∃ err, generateEmbeddingAttempt o = .error err)
        ↔ (o = .httpError ∨ o = .malformed
            ∨ ∃ r, o = .payload r ∧ (r.success = false ∨ r.data = []))) := by
  refine ⟨?_, ?_, ?_, ?_, ?_, ?_⟩
  · unfold generateEmbeddings
    rcases generateEmbeddingAttempt (world 0) with e | e <;>
      rcases h1 : generateEmbeddingAttempt (world 1) with e1 | e1 <;> simp
  · unfold generateEmbeddings
    rcases generateEmbeddingAttempt (world 0) with e | e <;>
      rcases h1 : generateEmbeddingAttempt (world 1) with e1 | e1 <;> simp
  · intro e he
    unfold generateEmbeddings
    rw [he]
  · intro err he
    unfold generateEmbeddings
    rw [he]
    rcases generateEmbeddingAttempt (world 1) with e1 | e1 <;> simp
  · unfold generateEmbeddings
    rcases h0 : generateEmbeddingAttempt (world 0) with e0 | e0 <;>
      rcases h1 : generateEmbeddingAttempt (world 1) with e1 | e1 <;> simp
  · intro o
    rcases o with _ | _ | r
    · simp [generateEmbeddingAttempt]
    · simp [generateEmbeddingAttempt]
    · rcases r with ⟨s, d⟩
      rcases s <;> rcases d with _ | ⟨d0, ds⟩ <;>
        simp [generateEmbeddingAttempt]

/-! ### Remote delete success flag (vector.rs lines 235-280) -/

/-- Observable outcome of the `delete_by_ids` HTTP call: non-2xx status
(rejected in `post_request`), an unparseable body, or a parsed JSON body
whose `success` field is `some b` when present as a boolean and `none`
when absent or not a boolean (`get("success").and_then(as_bool)`). -/
inductive DeleteOutcome where
  | httpError
  | malformed
  | body (success : Option Bool)

/-- Model of `delete_vectors_by_prefix` (vector.rs lines 235-280): build
the ids `"{id_prefix}-0"` .. `"{id_prefix}-(chunk_count-1)"`, post them,
and fail unless the parsed response has `success == true`
(`unwrap_or(false)`). Returns the result and the submitted ids. -/
def deleteVectorsByPrefix (idPrefix : Str) (chunkCount : Nat)
    (backend : List Str → DeleteOutcome) : Except String Unit × List Str :=
  let vector_ids := (List.range chunkCount).map (mkVectorId idPrefix)
  let result : Except String Unit :=
    match backend vector_ids with
    | .httpError => .error "Failed to send vector request"
    | .malformed => .error "SerdeJsonError"
    | .body s =>
      if s.getD false then .ok ()
      else .error "Vector deletion reported failure"
  (result, vector_ids)

/-- Claim C7: the delete call returns `Ok` exactly when the parsed
response carries `success == true` — an HTTP 200 whose body has
`success` false, missing, or non-boolean is still an error — and the ids
it submits are exactly `"{id_prefix}-0"` .. `"{id_prefix}-(chunk_count-1)"`. -/
theorem delete_vectors_by_prefix_success_flag (idPrefix : Str) (chunkCount : Nat)
    (backend : List Str → DeleteOutcome) :
    ((deleteVectorsByPrefix idPrefix chunkCount backend).1 = .ok ()
      ↔ backend ((List.range chunkCount).map (mkVectorId idPrefix))
          = .body (some true))
    ∧ (deleteVectorsByPrefix idPrefix chunkCount backend).2
        = (List.range chunkCount).map (mkVectorId idPrefix) := by
  refine ⟨?_, rfl⟩
  show (match backend ((List.range chunkCount).map (mkVectorId idPrefix)) with
    | DeleteOutcome.httpError => Except.error "Failed to send vector request"
    | DeleteOutcome.malformed => Except.error "SerdeJsonError"
    | DeleteOutcome.body s =>
      if s.getD false then Except.ok ()
      else Except.error "Vector deletion reported failure") = Except.ok () ↔ _
  rcases backend ((List.range chunkCount).map (mkVectorId idPrefix)) with _ | _ | s
  · simp
  · simp
  · rcases s with _ | b
    · simp
    · rcases b <;> simp

/-! ### Loading the local snapshot (vector.rs lines 164-177,
telegram.rs lines 141-144) -/

/-- Model of `get_vector_lite` (vector.rs lines 164-177): a missing
`"vector_lite.bin"` blob is an error, a present blob deserializes to its
content. The blob is modelled by its decoded index content. -/
def getVectorLite (blob : Option (List (Str × V))) :
    Except String (List (Str × V)) :=
  match blob with
  | none => .error "Failed to get vector lite"
  | some b => .ok b

/-- Model of the rebuild's snapshot load (telegram.rs lines 141-144): a
read failure falls back to a fresh empty index (`VectorLite::new(4, 20)`). -/
def loadIndexForRebuild (blob : Option (List (Str × V))) : List (Str × V) :=
  match blob with
  | none => []
  | some b => b

/-- Model of `query_vectors_with_scores_vector_lite` (vector.rs lines
188-205): embedding generation and the snapshot load are joined, then
each is unwrapped with `?`; the loaded index is searched. The library
search is a parameter. -/
def queryVectorsWithScoresVectorLite (embedRes : Except String (List ℚ))
    (blob : Option (List (Str × V)))
    (search : List ℚ → List (Str × V) → List (Str × ℚ)) :
    Except String (List (Str × ℚ)) :=
  match embedRes with
  | .error e => .error e
  | .ok qv =>
    match getVectorLite blob with
    | .error e => .error e
    | .ok idx => .ok (search qv idx)

/-- Claim C10: with the snapshot blob absent, `get_vector_lite` errors
rather than returning an empty index, so a local-backend query fails
(never returns an `Ok` result, empty or otherwise); only the rebuild path
substitutes a fresh empty index. -/
theorem get_vector_lite_missing_blob_errors (embedRes : Except String (List ℚ))
    (search : List ℚ → List (Str × V) → List (Str × ℚ)) :
    getVectorLite (V := V) none = .error "Failed to get vector lite"
    ∧ (∀ b : List (Str × V), getVectorLite (some b) = .ok b)
    ∧ loadIndexForRebuild (V := V) none = []
    ∧ ∀ l, queryVectorsWithScoresVectorLite embedRes none search ≠ .ok l := by
  refine ⟨rfl, fun b => rfl, rfl, ?_⟩
  intro l
  unfold queryVectorsWithScoresVectorLite
  rcases embedRes with e | qv <;> simp [getVectorLite]

/-! ### Query engine top-k merge

The scored, grouping `search_links` called from telegram.rs line 289 is
absent from the source tree (the handlers file present is an older
revision with a different, scoreless `search_links`); the definitions
below are therefore modelled from the spec, section 4.4. Scores are
modelled as rationals. -/

/-- Modelled from the spec: one grouped document during the top-k merge —
the parsed `document_id`, the maximum score seen, and the accumulated
`(score, chunk_index_token)` list (spec 4.4 step 4; the concrete
`search_links` is missing from the source tree). -/
structure DocHits where
  docId : Str
  maxScore : ℚ
  chunks : List (ℚ × Str)

/-- Modelled from the spec: the final `-`-delimited token of a vector id,
treated as the chunk index (spec 4.4 step 3). -/
def lastTok (vid : Str) : Str := (splitDash vid).getLastD []

/-- Modelled from the spec: add one chunk hit to the groups accumulated so
far, preserving first-seen document order and tracking the per-document
maximum score (spec 4.4 step 4). -/
def insertHit (groups : List DocHits) (d : Str) (score : ℚ) (tok : Str) :
    List DocHits :=
  match groups with
  | [] => [⟨d, score, [(score, tok)]⟩]
  | g :: gs =>
    if g.docId = d then
      ⟨g.docId, max g.maxScore score, g.chunks ++ [(score, tok)]⟩ :: gs
    else g :: insertHit gs d score tok

/-- Modelled from the spec: group chunk hits by parsed document id
(spec 4.4 steps 3-4). -/
def groupHits (hits : List (Str × ℚ)) : List DocHits :=
  hits.foldl (fun gs h => insertHit gs (parseLinkId h.1) h.2 (lastTok h.1)) []

/-- Documents ordered by descending maximum score. -/
def scoreGE (a b : DocHits) : Prop := b.maxScore ≤ a.maxScore

instance : DecidableRel scoreGE :=
  fun a b => inferInstanceAs (Decidable (b.maxScore ≤ a.maxScore))

instance : IsTotal DocHits scoreGE := ⟨fun a b => le_total b.maxScore a.maxScore⟩

instance : IsTrans DocHits scoreGE := ⟨fun _ _ _ h1 h2 => le_trans h2 h1⟩

/-- Chunks ordered by descending score. -/
def chunkScoreGE (a b : ℚ × Str) : Prop := b.1 ≤ a.1

instance : DecidableRel chunkScoreGE :=
  fun a b => inferInstanceAs (Decidable (b.1 ≤ a.1))

/-- Modelled from the spec: within a surviving document, sort its chunk
list descending by score for display (spec 4.4 step 6). -/
def sortChunksDesc (g : DocHits) : DocHits :=
  ⟨g.docId, g.maxScore, List.insertionSort chunkScoreGE g.chunks⟩

/-- Modelled from the spec: the backend-independent top-k merge
(spec 4.4 steps 3-6): short-circuit on an empty hit set, group by parsed
document id, stable-sort descending by maximum score, truncate to 5. -/
def searchLinksMerge (hits : List (Str × ℚ)) : List DocHits :=
  if hits.isEmpty then []
  else ((List.insertionSort scoreGE (groupHits hits)).take 5).map sortChunksDesc

theorem sortChunksDesc_docId (g : DocHits) : (sortChunksDesc g).docId = g.docId := rfl

theorem sortChunksDesc_maxScore (g : DocHits) :
    (sortChunksDesc g).maxScore = g.maxScore := rfl

/-- Claim C2: for a non-empty hit set the merge returns the grouped
documents sorted descending by per-document maximum score, truncated to
the 5 best (every document it drops scores no higher than every document
it keeps); on the spec's example hits it returns `d1` (max 0.9) before
`d2` (max 0.85), and on 7 distinct documents exactly the best 5. -/
theorem search_links_top_k_merge (hits : List (Str × ℚ)) (h : hits ≠ []) :
    ((searchLinksMerge hits).length = min 5 (groupHits hits).length
      ∧ List.Pairwise (fun a b : DocHits => b.maxScore ≤ a.maxScore)
          (searchLinksMerge hits)
      ∧ (List.insertionSort scoreGE (groupHits hits)).Perm (groupHits hits)
      ∧ ∀ a ∈ searchLinksMerge hits,
          ∀ b ∈ (List.insertionSort scoreGE (groupHits hits)).drop 5,
            b.maxScore ≤ a.maxScore)
    ∧ (searchLinksMerge [(('d' :: '1' :: '-' :: '0' :: []), (9 : ℚ)/10),
          (('d' :: '1' :: '-' :: '1' :: []), (4 : ℚ)/10),
          (('d' :: '2' :: '-' :: '0' :: []), (85 : ℚ)/100)]).map
            (fun g => (g.docId, g.maxScore))
        = [(('d' :: '1' :: []), (9 : ℚ)/10), (('d' :: '2' :: []), (85 : ℚ)/100)]
    ∧ (searchLinksMerge [((['a', '-', '0'] : Str), (7 : ℚ)/10),
          ((['b', '-', '0'] : Str), (3 : ℚ)/10),
          ((['c', '-', '0'] : Str), (9 : ℚ)/10),
          ((['d', '-', '0'] : Str), (1 : ℚ)/10),
          ((['e', '-', '0'] : Str), (8 : ℚ)/10),
          ((['f', '-', '0'] : Str), (2 : ℚ)/10),
          ((['g', '-', '0'] : Str), (5 : ℚ)/10)]).map DocHits.docId
        = [['c'], ['e'], ['a'], ['g'], ['b']] := by
  have hne : hits.isEmpty = false := by
    cases hits with
    | nil => exact absurd rfl h
    | cons x xs => rfl
  have hopen : searchLinksMerge hits
      = ((List.insertionSort scoreGE (groupHits hits)).take 5).map sortChunksDesc := by
    unfold searchLinksMerge
    rw [hne]
    simp
  have hsorted : List.Sorted scoreGE (List.insertionSort scoreGE (groupHits hits)) :=
    List.sorted_insertionSort scoreGE (groupHits hits)
  refine ⟨⟨?_, ?_, List.perm_insertionSort scoreGE (groupHits hits), ?_⟩, ?_, ?_⟩
  · rw [hopen, List.length_map, List.length_take,
      List.length_insertionSort]
  · rw [hopen]
    rw [List.pairwise_map]
    have htake : List.Pairwise scoreGE
        ((List.insertionSort scoreGE (groupHits hits)).take 5) :=
      List.Pairwise.sublist (List.take_sublist 5 _) hsorted
    exact htake.imp (fun hab => hab)
  · intro a ha b hb
    rw [hopen] at ha
    rcases List.mem_map.mp ha with ⟨a0, ha0, rfl⟩
    have hall : List.Pairwise scoreGE
        ((List.insertionSort scoreGE (groupHits hits)).take 5
          ++ (List.insertionSort scoreGE (groupHits hits)).drop 5) := by
      rw [List.take_append_drop]
      exact hsorted
    exact (List.pairwise_append.mp hall).2.2 a0 ha0 b hb
  · norm_num [searchLinksMerge, groupHits, insertHit, parseLinkId, splitDash,
      joinDash, lastTok, sortChunksDesc, scoreGE, chunkScoreGE,
      List.insertionSort, List.orderedInsert]
  · norm_num [searchLinksMerge, groupHits, insertHit, parseLinkId, splitDash,
      joinDash, lastTok, sortChunksDesc, scoreGE, chunkScoreGE,
      List.insertionSort, List.orderedInsert]

theorem search_links_top_k_merge_witness :
    (([((['d', '1', '-', '0'] : Str), (9 : ℚ)/10),
        ((['d', '1', '-', '1'] : Str), (4 : ℚ)/10),
        ((['d', '2', '-', '0'] : Str), (85 : ℚ)/100)] : List (Str × ℚ)) ≠ [])
    ∧ (searchLinksMerge [((['d', '1', '-', '0'] : Str), (9 : ℚ)/10),
          ((['d', '1', '-', '1'] : Str), (4 : ℚ)/10),
          ((['d', '2', '-', '0'] : Str), (85 : ℚ)/100)]).map
            (fun g => (g.docId, g.maxScore))
        = [((['d', '1'] : Str), (9 : ℚ)/10), ((['d', '2'] : Str), (85 : ℚ)/100)] :=
  ⟨List.cons_ne_nil _ _,
    (search_links_top_k_merge
      [((['d', '1', '-', '0'] : Str), (9 : ℚ)/10),
        ((['d', '1', '-', '1'] : Str), (4 : ℚ)/10),
        ((['d', '2', '-', '0'] : Str), (85 : ℚ)/100)] (List.cons_ne_nil _ _)).2.1⟩

/-! ### Query result assembly (metadata resolution) -/

/-- Modelled from the spec: the document metadata resolved for a surviving
document id (spec 4.4 step 7; the concrete `search_links` is missing from
the source tree). -/
structure DocMeta where
  url : Str
  title : Str

/-- Modelled from the spec: resolve metadata for the surviving documents;
a lookup miss or lookup error for one document (both collapsed to `none`)
is logged and that document is dropped, the rest are kept in order
(spec 4.4 step 7). -/
def resolveDocs (docs : List DocHits) (lookup : Str → Option DocMeta) :
    List (DocMeta × ℚ) :=
  docs.filterMap (fun g => (lookup g.docId).map (fun m => (m, g.maxScore)))

theorem resolveDocs_filter (docs : List DocHits) (lookup : Str → Option DocMeta) :
    resolveDocs docs lookup
        = resolveDocs (docs.filter (fun d => (lookup d.docId).isSome)) lookup
    ∧ (resolveDocs docs lookup).length
        = (docs.filter (fun d => (lookup d.docId).isSome)).length := by
  induction docs with
  | nil => exact ⟨rfl, rfl⟩
  | cons d ds ih =>
    cases hl : lookup d.docId with
    | none =>
      have e1 : resolveDocs (d :: ds) lookup = resolveDocs ds lookup := by
        simp [resolveDocs, List.filterMap_cons, hl]
      have e2 : (d :: ds).filter (fun d => (lookup d.docId).isSome)
          = ds.filter (fun d => (lookup d.docId).isSome) := by
        simp [List.filter_cons, hl]
      rw [e1, e2]
      exact ih
    | some m =>
      have e1 : resolveDocs (d :: ds) lookup
          = (m, d.maxScore) :: resolveDocs ds lookup := by
        simp [resolveDocs, List.filterMap_cons, hl]
      have e2 : (d :: ds).filter (fun d => (lookup d.docId).isSome)
          = d :: ds.filter (fun d => (lookup d.docId).isSome) := by
        simp [List.filter_cons, hl]
      have e3 : resolveDocs (d :: ds.filter (fun d => (lookup d.docId).isSome)) lookup
          = (m, d.maxScore)
            :: resolveDocs (ds.filter (fun d => (lookup d.docId).isSome)) lookup := by
        simp [resolveDocs, List.filterMap_cons, hl]
      rw [e1, e2, e3]
      exact ⟨by rw [ih.1], by simp [ih.2]⟩

/-- Claim C6: a metadata-lookup miss (or error, treated alike) for one
document does not fail the query: every document whose lookup succeeds
still contributes its `(metadata, max_score)` pair to the result, the
missing document is dropped, and the result is exactly the resolution of
the successfully-looked-up documents. -/
theorem search_links_lookup_miss_drops_only (docs : List DocHits)
    (lookup : Str → Option DocMeta) (g : DocHits)
    (hg : g ∈ docs) (hmiss : lookup g.docId = none) :
    (∀ g' ∈ docs, ∀ m, lookup g'.docId = some m →
        (m, g'.maxScore) ∈ resolveDocs docs lookup)
    ∧ resolveDocs docs lookup
        = resolveDocs (docs.filter (fun d => (lookup d.docId).isSome)) lookup
    ∧ (resolveDocs docs lookup).length
        = (docs.filter (fun d => (lookup d.docId).isSome)).length := by
  obtain ⟨h1, h2⟩ := resolveDocs_filter docs lookup
  refine ⟨?_, h1, h2⟩
  intro g' hg' m hm
  apply List.mem_filterMap.mpr
  exact ⟨g', hg', by rw [hm]; rfl⟩

theorem search_links_lookup_miss_drops_only_witness :
    ((⟨['a'], 1, []⟩ : DocHits)
        ∈ [(⟨['a'], 1, []⟩ : DocHits), (⟨['b'], 2, []⟩ : DocHits)])
    ∧ ((fun s => if s = ['b'] then some (⟨['u'], ['t']⟩ : DocMeta) else none)
        (['a'] : Str) = none)
    ∧ ((⟨['u'], ['t']⟩ : DocMeta), (2 : ℚ))
        ∈ resolveDocs [(⟨['a'], 1, []⟩ : DocHits), (⟨['b'], 2, []⟩ : DocHits)]
            (fun s => if s = ['b'] then some (⟨['u'], ['t']⟩ : DocMeta) else none) := by
  refine ⟨by simp, by simp, ?_⟩
  have h := search_links_lookup_miss_drops_only
    [(⟨['a'], 1, []⟩ : DocHits), (⟨['b'], 2, []⟩ : DocHits)]
    (fun s => if s = ['b'] then some (⟨['u'], ['t']⟩ : DocMeta) else none)
    (⟨['a'], 1, []⟩ : DocHits) (by simp) (by simp)
  exact h.1 (⟨['b'], 2, []⟩ : DocHits) (by simp) (⟨['u'], ['t']⟩ : DocMeta) (by simp)

end Seen
